import Mathlib

/-!
Shallow embedding of the FSRS scheduler (`src/Python/fsrs.py`) and proofs
about it.

Modelling conventions:
* Python floats are modelled as real numbers (`ℝ`).  Non-finite inputs can
  only reach the system through the weight vector, where `math.isfinite`
  rejects them at the validation boundary; so the weight *input* is modelled
  by `PyFloat` (a real or one of the non-finite markers) and everything past
  validation works on `ℝ`.
* `timedelta` values are modelled by their length in seconds (`ℝ`);
  `total_seconds()` is the identity, `timedelta(days=n)` is `n * 86400`
  and `timedelta(minutes=m)` is `m * 60`.
* Python operations that can raise at review time are modelled with
  `Option`: float division by zero (`pdiv`), `math.log` of a non-positive
  argument (`plog`), `x ** y` when the base is negative (Python leaves the
  reals: the complex value poisons every later comparison) or zero with a
  non-positive exponent (`ppow`), and out-of-range list indexing.
  `Scheduler` construction is modelled with `Except` to keep the error kind.
* Python `round` on floats rounds half to even (`pyRound`).
* The instance pseudo-random generator consumed by fuzzing is modelled as an
  oracle `rand : ℤ → ℤ → ℤ` passed to `review_card`; a whole review sequence
  takes a family `ℕ → ℤ → ℤ → ℤ`, one draw per call, which covers any
  evolution of the generator state.
-/

namespace Fsrs

noncomputable section

/-- A Python float at the validation boundary: a finite real number or one
of the non-finite values that `math.isfinite` rejects. -/
inductive PyFloat where
  | fin (x : ℝ)
  | nan
  | posInf
  | negInf

/-- Python `math.isfinite`. -/
def PyFloat.isFinite : PyFloat → Bool
  | .fin _ => true
  | _ => false

/-- The real value of a finite `PyFloat` (junk 0 on the non-finite markers,
which never get past validation). -/
def PyFloat.toReal : PyFloat → ℝ
  | .fin x => x
  | _ => 0

/-- The `Rating` enum: `AGAIN = 1, HARD = 2, GOOD = 3, EASY = 4`. -/
inductive Rating where
  | again
  | hard
  | good
  | easy
deriving DecidableEq

/-- The ordinal `value` of a rating, as a natural number. -/
def Rating.natValue : Rating → ℕ
  | .again => 1
  | .hard => 2
  | .good => 3
  | .easy => 4

/-- `rating.value` as it enters the float formulas. -/
def Rating.value (r : Rating) : ℝ := (r.natValue : ℝ)

/-- The `State` enum: `NEW = 0, LEARNING = 1, REVIEW = 2, RELEARNING = 3`. -/
inductive State where
  | new
  | learning
  | review
  | relearning
deriving DecidableEq

/-- The `Card` dataclass.  `interval` is a `timedelta`, modelled in
seconds. -/
structure Card where
  card_id : ℤ
  interval : ℝ
  state : State
  step : ℕ
  stability : ℝ
  difficulty : ℝ

/-- The `SchedulerConfig` dataclass.  The raw weight vector is a list of
`PyFloat` (it is the only place a non-finite float can enter); step
durations and `desired_retention` are reals, `maximum_interval` is a Python
int. -/
structure SchedulerConfig where
  w : List PyFloat
  desired_retention : ℝ
  learning_steps : List ℝ
  relearning_steps : List ℝ
  maximum_interval : ℤ
  enable_fuzzing : Bool

/-- Exceptions the Python code can raise during construction:
the two `ValueError`s of `_check_and_fill_parameters`, the
`ZeroDivisionError` of `1.0 / self.decay`, and the `math domain error` of
`math.log` in the 17-parameter transform. -/
inductive FsrsError where
  | invalidParameters
  | invalidParameterCount
  | zeroDivisionError
  | mathDomainError
deriving DecidableEq

def MIN_DIFFICULTY : ℝ := 1.0

def MAX_DIFFICULTY : ℝ := 10.0

def STABILITY_MIN : ℝ := 0.001

/-- `_clamp_difficulty`. -/
def clamp_difficulty (difficulty : ℝ) : ℝ :=
  max MIN_DIFFICULTY (min difficulty MAX_DIFFICULTY)

/-- `_clamp_stability`. -/
def clamp_stability (stability : ℝ) : ℝ :=
  max stability STABILITY_MIN

/-- Python float division: raises `ZeroDivisionError` on a zero divisor. -/
def pdiv (x y : ℝ) : Option ℝ :=
  if y = 0 then none else some (x / y)

/-- Python `x ** y` on floats: total for a positive base; for base `0` it is
`0` for a positive exponent, `1` for exponent `0` and raises
`ZeroDivisionError` for a negative exponent; for a negative base with a real
exponent the result leaves the reals (Python produces a `complex`), which
poisons every subsequent comparison, so it is modelled as failure. -/
def ppow (x y : ℝ) : Option ℝ :=
  if 0 < x then some (x ^ y)
  else if x = 0 then
    if 0 < y then some 0
    else if y = 0 then some 1
    else none
  else none

/-- Python `math.log`: raises `math domain error` on a non-positive
argument. -/
def plog (x : ℝ) : Option ℝ :=
  if 0 < x then some (Real.log x) else none

/-- Python `round` on a float: round half to even. -/
def pyRound (x : ℝ) : ℤ :=
  if Int.fract x = 1 / 2 then
    if Even ⌊x⌋ then ⌊x⌋ else ⌊x⌋ + 1
  else round x

/-- `_raw_initial_difficulty`. -/
def raw_initial_difficulty (w : List ℝ) (r : Rating) : ℝ :=
  w.getD 4 0 - Real.exp (w.getD 5 0 * (r.value - 1)) + 1

/-- `initial_stability`. -/
def initial_stability (w : List ℝ) (r : Rating) : ℝ :=
  clamp_stability (w.getD (r.natValue - 1) 0)

/-- `initial_difficulty`. -/
def initial_difficulty (w : List ℝ) (r : Rating) : ℝ :=
  clamp_difficulty (raw_initial_difficulty w r)

/-- `next_interval`: `interval_days = (stability / factor) *
(retention ** (1.0 / decay) - 1.0)`, then
`timedelta(days=min(max(1, round(interval_days)), max_interval))`.
The divisions and the power are the Python partial operations. -/
def next_interval (factor retention decay : ℝ) (max_interval : ℤ)
    (stability : ℝ) : Option ℝ :=
  match pdiv stability factor, pdiv 1 decay with
  | some q, some e =>
    match ppow retention e with
    | some p => some (86400 * ((min (max 1 (pyRound (q * (p - 1)))) max_interval : ℤ) : ℝ))
    | none => none
  | _, _ => none

/-- `short_term_stability`. -/
def short_term_stability (w : List ℝ) (stability : ℝ) (r : Rating) : Option ℝ :=
  match ppow stability (-(w.getD 19 0)) with
  | none => none
  | some p =>
    let increase := Real.exp (w.getD 17 0 * (r.value - 3 + w.getD 18 0)) * p
    let final_increase := if r = Rating.good ∨ r = Rating.easy then max increase 1 else increase
    some (clamp_stability (stability * final_increase))

/-- `next_difficulty` (total: only `exp` and field arithmetic). -/
def next_difficulty (w : List ℝ) (difficulty : ℝ) (r : Rating) : ℝ :=
  let delta_difficulty := -(w.getD 6 0) * (r.value - 3)
  let damped_delta := (MAX_DIFFICULTY - difficulty) * delta_difficulty / (MAX_DIFFICULTY - MIN_DIFFICULTY)
  let initial_easy_difficulty := raw_initial_difficulty w Rating.easy
  let new_difficulty := w.getD 7 0 * initial_easy_difficulty + (1 - w.getD 7 0) * (difficulty + damped_delta)
  clamp_difficulty new_difficulty

/-- `_next_forget_stability`.  The division by `exp(w[17]*w[18])` is total
since `exp` is everywhere positive. -/
def next_forget_stability (w : List ℝ) (difficulty stability retrievability : ℝ) : Option ℝ :=
  match ppow difficulty (-(w.getD 12 0)), ppow (stability + 1) (w.getD 13 0) with
  | some p1, some p2 =>
    let long_term := w.getD 11 0 * p1 * (p2 - 1) * Real.exp ((1 - retrievability) * w.getD 14 0)
    let short_term := stability / Real.exp (w.getD 17 0 * w.getD 18 0)
    some (min long_term short_term)
  | _, _ => none

/-- `_next_recall_stability`. -/
def next_recall_stability (w : List ℝ) (difficulty stability retrievability : ℝ)
    (r : Rating) : Option ℝ :=
  let hard_penalty := if r = Rating.hard then w.getD 15 0 else 1
  let easy_bonus := if r = Rating.easy then w.getD 16 0 else 1
  match ppow stability (-(w.getD 9 0)) with
  | none => none
  | some p =>
    some (stability * (1 + Real.exp (w.getD 8 0) * (11 - difficulty) * p *
      (Real.exp ((1 - retrievability) * w.getD 10 0) - 1) * hard_penalty * easy_bonus))

/-- `next_stability`. -/
def next_stability (w : List ℝ) (difficulty stability retrievability : ℝ)
    (r : Rating) : Option ℝ :=
  (if r = Rating.again then next_forget_stability w difficulty stability retrievability
   else next_recall_stability w difficulty stability retrievability r).map clamp_stability

/-- `Scheduler._check_and_fill_parameters`.  In the 17-parameter branch the
source mutates `wn[4]`, `wn[5]`, `wn[6]` in turn; each assignment reads only
indices it has not yet written, so every read below is from the original
list. -/
def check_and_fill_parameters (w : List PyFloat) : Except FsrsError (List ℝ) :=
  if w.any (fun v => !v.isFinite) then .error .invalidParameters
  else
    let v := w.map PyFloat.toReal
    if v.length = 21 then .ok v
    else if v.length = 19 then .ok (v ++ [0, 0.5])
    else if v.length = 17 then
      match plog (v.getD 5 0 * 3 + 1) with
      | none => .error .mathDomainError
      | some l =>
        .ok (((v.set 4 (v.getD 5 0 * 2 + v.getD 4 0)).set 5 (l / 3)).set 6 (v.getD 6 0 + 0.5)
          ++ [0, 0, 0, 0.5])
    else .error .invalidParameterCount

/-- The state a `Scheduler` instance holds after `__init__`. -/
structure Scheduler where
  config : SchedulerConfig
  w : List ℝ
  decay : ℝ
  factor : ℝ

/-- `Scheduler.__init__`: validates and normalizes the weights, then
`decay = -w[20]` and `factor = 0.9 ** (1.0 / decay) - 1.0`; the division
raises `ZeroDivisionError` when `decay` is zero, and `0.9 ** e` is total
because its base is positive. -/
def Scheduler.init (config : SchedulerConfig) : Except FsrsError Scheduler :=
  match check_and_fill_parameters config.w with
  | .error e => .error e
  | .ok w =>
    let decay := -(w.getD 20 0)
    if decay = 0 then .error .zeroDivisionError
    else .ok { config := config, w := w, decay := decay, factor := (0.9 : ℝ) ^ (1 / decay) - 1 }

/-- `Scheduler._get_card_retrievability`:
`(1.0 + factor * elapsed_days / card.stability) ** decay` with
`elapsed_days = max(0.0, review_interval.total_seconds() / 86400)`. -/
def Scheduler.get_card_retrievability (s : Scheduler) (c : Card) (review_interval : ℝ) : Option ℝ :=
  let elapsed_days := max 0 (review_interval / 86400)
  match pdiv (s.factor * elapsed_days) c.stability with
  | none => none
  | some q => ppow (1 + q) s.decay

/-- `Scheduler._calculate_next_reviewed_state`.  For a non-new card the
source computes the retrievability before branching, so its division by
`card.stability` runs even on the same-day path. -/
def Scheduler.calculate_next_reviewed_state (s : Scheduler) (c : Card) (r : Rating)
    (review_interval : ℝ) : Option Card :=
  if c.state = State.new then
    some { c with stability := initial_stability s.w r
                , difficulty := initial_difficulty s.w r
                , state := State.learning
                , step := 0 }
  else
    match s.get_card_retrievability c review_interval with
    | none => none
    | some retrievability =>
      let nd := next_difficulty s.w c.difficulty r
      match (if review_interval < 86400 then short_term_stability s.w c.stability r
             else next_stability s.w c.difficulty c.stability retrievability r) with
      | none => none
      | some ns => some { c with difficulty := nd, stability := ns }

/-- `Scheduler._calculate_next_review_interval`. -/
def Scheduler.calculate_next_review_interval (s : Scheduler) (stability : ℝ) : Option ℝ :=
  next_interval s.factor s.config.desired_retention s.decay s.config.maximum_interval stability

/-- `Scheduler._to_review_state`. -/
def Scheduler.to_review_state (s : Scheduler) (c : Card) : Option Card :=
  match s.calculate_next_review_interval c.stability with
  | none => none
  | some i => some { c with state := State.review, step := 0, interval := i }

/-- `Scheduler._hard_interval_step`.  The fall-through `steps[card.step]`
raises `IndexError` when the step is out of range. -/
def Scheduler.hard_interval_step (s : Scheduler) (c : Card) (steps : List ℝ) : Option ℝ :=
  if c.step = 0 ∧ steps.length = 1 then some (60 * (steps.getD 0 0 / 60 * 1.5))
  else if c.step = 0 ∧ 1 < steps.length then
    some (60 * ((steps.getD 0 0 / 60 + steps.getD 1 0 / 60) / 2))
  else steps[c.step]?

/-- `Scheduler._handle_steps`. -/
def Scheduler.handle_steps (s : Scheduler) (c : Card) (r : Rating) (steps : List ℝ) : Option Card :=
  if steps = [] then s.to_review_state c
  else
    match r with
    | Rating.again => some { c with state := State.learning, step := 0, interval := steps.getD 0 0 }
    | Rating.hard =>
      match s.hard_interval_step c steps with
      | none => none
      | some i => some { c with interval := i }
    | Rating.good =>
      let next_step := c.step + 1
      if steps.length ≤ next_step then s.to_review_state c
      else some { c with state := State.learning, step := next_step, interval := steps.getD next_step 0 }
    | Rating.easy => s.to_review_state c

/-- `Scheduler._determine_next_card_state`.  The source `match` has no case
for `NEW`, and a Python `match` without a matching case silently does
nothing, so `new` leaves the card unchanged. -/
def Scheduler.determine_next_card_state (s : Scheduler) (c : Card) (r : Rating) : Option Card :=
  match c.state with
  | State.learning => s.handle_steps c r s.config.learning_steps
  | State.relearning => s.handle_steps c r s.config.relearning_steps
  | State.review =>
    if r = Rating.again ∧ s.config.relearning_steps ≠ [] then
      some { c with state := State.relearning, step := 0
                  , interval := s.config.relearning_steps.getD 0 0 }
    else s.to_review_state c
  | State.new => some c

/-- The spread summed over `_fuzz_ranges = ((2.5, 7, 0.15), (7, 20, 0.1),
(20, inf, 0.05))`; for the unbounded band `min(interval_days, inf)` is
`interval_days` itself. -/
def fuzzDelta (interval_days : ℝ) : ℝ :=
  0.15 * max 0 (min interval_days 7 - 2.5)
    + 0.1 * max 0 (min interval_days 20 - 7)
    + 0.05 * max 0 (interval_days - 20)

/-- `Scheduler._get_fuzzed_interval`; `rand` is the oracle for
`self.rand.randint(min_ivl, max_ivl)`. -/
def Scheduler.get_fuzzed_interval (s : Scheduler) (rand : ℤ → ℤ → ℤ) (interval : ℝ) : ℝ :=
  let interval_days := interval / 86400
  if interval_days < 2.5 then interval
  else
    let delta := fuzzDelta interval_days
    let min_ivl : ℤ := max 2 (pyRound (interval_days - delta))
    let max_ivl : ℤ := pyRound (interval_days + delta)
    let fuzzed_days := rand min_ivl max_ivl
    86400 * ((min fuzzed_days s.config.maximum_interval : ℤ) : ℝ)

/-- `Scheduler._apply_fuzzing`. -/
def Scheduler.apply_fuzzing (s : Scheduler) (rand : ℤ → ℤ → ℤ) (c : Card) : Card :=
  if s.config.enable_fuzzing = true ∧ c.state = State.review then
    { c with interval := s.get_fuzzed_interval rand c.interval }
  else c

/-- `Scheduler.review_card`: the three phases in source order, on an
immutable card. -/
def Scheduler.review_card (s : Scheduler) (rand : ℤ → ℤ → ℤ) (c : Card) (r : Rating)
    (review_interval : ℝ) : Option Card :=
  match s.calculate_next_reviewed_state c r review_interval with
  | none => none
  | some c1 =>
    match s.determine_next_card_state c1 r with
    | none => none
    | some c2 => some (s.apply_fuzzing rand c2)

/-- A sequence of `review_card` calls against one scheduler; the draw oracle
`rands n` serves the `n`-th call, which covers any evolution of the
generator state across calls. -/
def Scheduler.review_seq (s : Scheduler) (rands : ℕ → ℤ → ℤ → ℤ) (n : ℕ) (c : Card) :
    List (Rating × ℝ) → Option Card
  | [] => some c
  | (r, dt) :: rest =>
    match s.review_card (rands n) c r dt with
    | none => none
    | some c' => s.review_seq rands (n + 1) c' rest

/-- `DEFAULT_CONFIG` from the source (step durations in seconds). -/
def DEFAULT_CONFIG : SchedulerConfig :=
  { w := [.fin 0.212, .fin 1.2931, .fin 2.3065, .fin 8.2956, .fin 6.4133, .fin 0.8334,
          .fin 3.0194, .fin 0.001, .fin 1.8722, .fin 0.1666, .fin 0.796, .fin 1.4835,
          .fin 0.0614, .fin 0.2629, .fin 1.6483, .fin 0.6014, .fin 1.8729, .fin 0.5425,
          .fin 0.0912, .fin 0.0658, .fin 0.1542]
  , desired_retention := 0.9
  , learning_steps := [60, 600]
  , relearning_steps := [600]
  , maximum_interval := 36500
  , enable_fuzzing := true }

/-- The default weights as plain reals. -/
def defaultW : List ℝ :=
  [0.212, 1.2931, 2.3065, 8.2956, 6.4133, 0.8334, 3.0194, 0.001, 1.8722, 0.1666, 0.796,
   1.4835, 0.0614, 0.2629, 1.6483, 0.6014, 1.8729, 0.5425, 0.0912, 0.0658, 0.1542]

/-- Spec section 4.4, from its words: `interval_days = (stability/factor) *
(desired_retention^(1/decay) - 1)`. -/
def spec_interval_days (factor retention decay stability : ℝ) : ℝ :=
  stability / factor * (retention ^ (1 / decay) - 1)

/-- Spec section 4.4, from its words: round to nearest integer, clamp to
`[1, maximum_interval]`. -/
def spec_interval (factor retention decay : ℝ) (max_interval : ℤ) (stability : ℝ) : ℤ :=
  min (max 1 (pyRound (spec_interval_days factor retention decay stability))) max_interval

/-- Spec section 4.1, from its words: the 17-parameter legacy transform
`w[4] = w[5]*2 + w[4]`, `w[5] = ln(w[5]*3 + 1)/3`, `w[6] = w[6] + 0.5`
(each right-hand side reading the original vector), then append
`[0.0, 0.0, 0.0, 0.5]`. -/
def spec_transform_17 (v : List ℝ) : List ℝ :=
  ((v.set 4 (v.getD 5 0 * 2 + v.getD 4 0)).set 5 (Real.log (v.getD 5 0 * 3 + 1) / 3)).set 6
      (v.getD 6 0 + 0.5)
    ++ [0, 0, 0, 0.5]

/-- The step sequence the state machine dispatches on for a card state. -/
def active_steps (s : Scheduler) (st : State) : List ℝ :=
  match st with
  | State.learning => s.config.learning_steps
  | State.relearning => s.config.relearning_steps
  | _ => []

/-- A draw oracle that always answers 0. -/
def randA : ℤ → ℤ → ℤ := fun _ _ => 0

/-- A draw oracle that always answers 1. -/
def randB : ℤ → ℤ → ℤ := fun _ _ => 1

/-- A draw-oracle family that always answers 0. -/
def randsA : ℕ → ℤ → ℤ → ℤ := fun _ _ _ => 0

/-- A draw-oracle family that always answers 1. -/
def randsB : ℕ → ℤ → ℤ → ℤ := fun _ _ _ => 1

/-- A concrete configuration used by witnesses: empty weight list (every
`w[i]` read defaults to 0), fuzzing disabled. -/
def wConfig : SchedulerConfig :=
  { w := []
  , desired_retention := 0.9
  , learning_steps := [60, 600]
  , relearning_steps := [600, 1200]
  , maximum_interval := 36500
  , enable_fuzzing := false }

/-- A concrete scheduler value used by witnesses. -/
def wSched : Scheduler :=
  { config := wConfig, w := [], decay := -1, factor := (0.9 : ℝ) ^ (1 / (-1 : ℝ)) - 1 }

/-- A freshly created card. -/
def cardNew : Card :=
  { card_id := 1, interval := 0, state := State.new, step := 0, stability := 0, difficulty := 0 }

/-- A learning card whose stability is zero (constructible by the caller:
`Card` puts no constraint on the field). -/
def cardLearnZero : Card :=
  { card_id := 1, interval := 0, state := State.learning, step := 0, stability := 0, difficulty := 0 }

/-- A learning card with unit stability and difficulty. -/
def cardLearnOne : Card :=
  { card_id := 1, interval := 0, state := State.learning, step := 0, stability := 1, difficulty := 1 }

/-- A relearning card with unit stability and difficulty. -/
def cardRelearn : Card :=
  { card_id := 1, interval := 0, state := State.relearning, step := 0, stability := 1, difficulty := 1 }

/-- A 21-element all-zero (finite) weight vector. -/
def cfgZeros21 : SchedulerConfig :=
  { w := List.replicate 21 (PyFloat.fin 0)
  , desired_retention := 0.9
  , learning_steps := [60, 600]
  , relearning_steps := [600]
  , maximum_interval := 36500
  , enable_fuzzing := true }

/-- A 17-element all-zero (finite) weight vector. -/
def wZeros17 : List PyFloat := List.replicate 17 (PyFloat.fin 0)

/-- What normalization turns `wZeros17` into. -/
def wZeros17Out : List ℝ :=
  [0, 0, 0, 0, 0, 0, 0.5, 0, 0, 0, 0, 0, 0, 0, 0, 0, 0, 0, 0, 0, 0.5]

/-- The scheduler `Scheduler.init DEFAULT_CONFIG` yields. -/
def defaultSched : Scheduler :=
  { config := DEFAULT_CONFIG, w := defaultW, decay := -(defaultW.getD 20 0)
  , factor := (0.9 : ℝ) ^ (1 / -(defaultW.getD 20 0)) - 1 }

/-- The card `review_card` produces from `cardNew` rated Again under
`wSched`. -/
def cardW2 : Card :=
  { card_id := 1, interval := 60, state := State.learning, step := 0
  , stability := 0.001, difficulty := 1 }

/-- The card `review_card` produces from `cardLearnOne` rated Again under
`wSched`. -/
def cardW3 : Card :=
  { card_id := 1, interval := 60, state := State.learning, step := 0
  , stability := 1, difficulty := 1 }

/-- The card `review_card` produces from `cardRelearn` rated Good under
`wSched`. -/
def cardW10 : Card :=
  { card_id := 1, interval := 1200, state := State.learning, step := 1
  , stability := 1, difficulty := 1 }

/-!  Basic evaluation lemmas for the partial primitives. -/

theorem pdiv_of_ne (x : ℝ) {y : ℝ} (h : y ≠ 0) : pdiv x y = some (x / y) := if_neg h

theorem pdiv_zero_right (x : ℝ) : pdiv x 0 = none := if_pos rfl

theorem ppow_of_pos {x : ℝ} (h : 0 < x) (y : ℝ) : ppow x y = some (x ^ y) := if_pos h

theorem plog_of_pos {x : ℝ} (h : 0 < x) : plog x = some (Real.log x) := if_pos h

theorem clamp_stability_ge (s : ℝ) : STABILITY_MIN ≤ clamp_stability s := le_max_right _ _

theorem clamp_difficulty_ge (d : ℝ) : MIN_DIFFICULTY ≤ clamp_difficulty d := le_max_left _ _

theorem clamp_difficulty_le (d : ℝ) : clamp_difficulty d ≤ MAX_DIFFICULTY :=
  max_le (by norm_num [MIN_DIFFICULTY, MAX_DIFFICULTY]) (min_le_right _ _)

/-!  Shape lemmas for the review pipeline. -/

/-- Every successful stability update out of `short_term_stability` is
clamped. -/
theorem short_term_stability_min {w : List ℝ} {st : ℝ} {r : Rating} {x : ℝ}
    (h : short_term_stability w st r = some x) : STABILITY_MIN ≤ x := by
  unfold short_term_stability at h
  cases hp : ppow st (-(w.getD 19 0)) with
  | none => rw [hp] at h; cases h
  | some p =>
    rw [hp] at h
    simp only [Option.some.injEq] at h
    rw [← h]
    exact clamp_stability_ge _

/-- Every successful stability update out of `next_stability` is clamped. -/
theorem next_stability_min {w : List ℝ} {d st retr : ℝ} {r : Rating} {x : ℝ}
    (h : next_stability w d st retr r = some x) : STABILITY_MIN ≤ x := by
  unfold next_stability at h
  rcases Option.map_eq_some'.mp h with ⟨a, -, ha⟩
  rw [← ha]
  exact clamp_stability_ge _

/-- What a successful first phase looks like.  For a new card the fields are
the initial values; otherwise state, step and interval are untouched, the
difficulty is the clamped `next_difficulty` and the stability comes out of
one of the two clamped stability updates. -/
theorem calculate_next_reviewed_state_spec (s : Scheduler) (c : Card) (r : Rating) (dt : ℝ)
    (c1 : Card) (h : s.calculate_next_reviewed_state c r dt = some c1) :
    (c.state = State.new ∧
      c1 = { c with stability := initial_stability s.w r
                  , difficulty := initial_difficulty s.w r
                  , state := State.learning
                  , step := 0 }) ∨
    (c.state ≠ State.new ∧ ∃ ns,
      ((dt < 86400 ∧ short_term_stability s.w c.stability r = some ns) ∨
        (¬ dt < 86400 ∧ ∃ retr, next_stability s.w c.difficulty c.stability retr r = some ns)) ∧
      c1 = { c with difficulty := next_difficulty s.w c.difficulty r, stability := ns }) := by
  unfold Scheduler.calculate_next_reviewed_state at h
  by_cases hs : c.state = State.new
  · rw [if_pos hs] at h
    exact Or.inl ⟨hs, (Option.some.injEq _ _ ▸ h).symm⟩
  · rw [if_neg hs] at h
    refine Or.inr ⟨hs, ?_⟩
    cases hr : s.get_card_retrievability c dt with
    | none => rw [hr] at h; cases h
    | some retr =>
      rw [hr] at h
      dsimp only at h
      by_cases hdt : dt < 86400
      · rw [if_pos hdt] at h
        cases hst : short_term_stability s.w c.stability r with
        | none => rw [hst] at h; cases h
        | some ns =>
          rw [hst] at h
          simp only [Option.some.injEq] at h
          exact ⟨ns, Or.inl ⟨hdt, rfl⟩, h.symm⟩
      · rw [if_neg hdt] at h
        cases hst : next_stability s.w c.difficulty c.stability retr r with
        | none => rw [hst] at h; cases h
        | some ns =>
          rw [hst] at h
          simp only [Option.some.injEq] at h
          exact ⟨ns, Or.inr ⟨hdt, retr, hst⟩, h.symm⟩

/-- The first phase does not move state, step or interval of a non-new
card. -/
theorem calculate_next_reviewed_state_frame (s : Scheduler) (c : Card) (r : Rating) (dt : ℝ)
    (c1 : Card) (hs : c.state ≠ State.new)
    (h : s.calculate_next_reviewed_state c r dt = some c1) :
    c1.state = c.state ∧ c1.step = c.step ∧ c1.interval = c.interval := by
  rcases calculate_next_reviewed_state_spec s c r dt c1 h with ⟨hnew, -⟩ | ⟨-, ns, -, hc⟩
  · exact absurd hnew hs
  · rw [hc]
    exact ⟨rfl, rfl, rfl⟩

/-- Bounds established by a successful first phase. -/
theorem calculate_next_reviewed_state_bounds (s : Scheduler) (c : Card) (r : Rating) (dt : ℝ)
    (c1 : Card) (h : s.calculate_next_reviewed_state c r dt = some c1) :
    STABILITY_MIN ≤ c1.stability ∧ MIN_DIFFICULTY ≤ c1.difficulty ∧
      c1.difficulty ≤ MAX_DIFFICULTY := by
  rcases calculate_next_reviewed_state_spec s c r dt c1 h with ⟨-, hc⟩ | ⟨-, ns, hns, hc⟩
  · rw [hc]
    exact ⟨clamp_stability_ge _, clamp_difficulty_ge _, clamp_difficulty_le _⟩
  · rw [hc]
    refine ⟨?_, clamp_difficulty_ge _, clamp_difficulty_le _⟩
    rcases hns with ⟨-, hst⟩ | ⟨-, retr, hst⟩
    · exact short_term_stability_min hst
    · exact next_stability_min hst

/-- A successful `_to_review_state` only replaces state, step and
interval. -/
theorem to_review_state_spec (s : Scheduler) (c : Card) (c2 : Card)
    (h : s.to_review_state c = some c2) :
    ∃ i, s.calculate_next_review_interval c.stability = some i ∧
      c2 = { c with state := State.review, step := 0, interval := i } := by
  unfold Scheduler.to_review_state at h
  cases hi : s.calculate_next_review_interval c.stability with
  | none => rw [hi] at h; cases h
  | some i =>
    rw [hi] at h
    simp only [Option.some.injEq] at h
    exact ⟨i, rfl, h.symm⟩

/-- `_handle_steps` never touches stability or difficulty. -/
theorem handle_steps_frame (s : Scheduler) (c : Card) (r : Rating) (steps : List ℝ) (c2 : Card)
    (h : s.handle_steps c r steps = some c2) :
    c2.stability = c.stability ∧ c2.difficulty = c.difficulty := by
  unfold Scheduler.handle_steps at h
  by_cases he : steps = []
  · rw [if_pos he] at h
    rcases to_review_state_spec s c c2 h with ⟨i, -, hc⟩
    rw [hc]
    exact ⟨rfl, rfl⟩
  · rw [if_neg he] at h
    cases r with
    | again =>
      dsimp only at h
      simp only [Option.some.injEq] at h
      rw [← h]
      exact ⟨rfl, rfl⟩
    | hard =>
      dsimp only at h
      cases hi : s.hard_interval_step c steps with
      | none => rw [hi] at h; cases h
      | some i =>
        rw [hi] at h
        simp only [Option.some.injEq] at h
        rw [← h]
        exact ⟨rfl, rfl⟩
    | good =>
      dsimp only at h
      by_cases hlen : steps.length ≤ c.step + 1
      · rw [if_pos hlen] at h
        rcases to_review_state_spec s c c2 h with ⟨i, -, hc⟩
        rw [hc]
        exact ⟨rfl, rfl⟩
      · rw [if_neg hlen] at h
        simp only [Option.some.injEq] at h
        rw [← h]
        exact ⟨rfl, rfl⟩
    | easy =>
      dsimp only at h
      rcases to_review_state_spec s c c2 h with ⟨i, -, hc⟩
      rw [hc]
      exact ⟨rfl, rfl⟩

/-- The second phase never touches stability or difficulty. -/
theorem determine_next_card_state_frame (s : Scheduler) (c : Card) (r : Rating) (c2 : Card)
    (h : s.determine_next_card_state c r = some c2) :
    c2.stability = c.stability ∧ c2.difficulty = c.difficulty := by
  unfold Scheduler.determine_next_card_state at h
  cases hs : c.state with
  | learning => rw [hs] at h; exact handle_steps_frame s c r _ c2 h
  | relearning => rw [hs] at h; exact handle_steps_frame s c r _ c2 h
  | review =>
    rw [hs] at h
    dsimp only at h
    by_cases hc : r = Rating.again ∧ s.config.relearning_steps ≠ []
    · rw [if_pos hc] at h
      simp only [Option.some.injEq] at h
      rw [← h]
      exact ⟨rfl, rfl⟩
    · rw [if_neg hc] at h
      rcases to_review_state_spec s c c2 h with ⟨i, -, hce⟩
      rw [hce]
      exact ⟨rfl, rfl⟩
  | new =>
    rw [hs] at h
    dsimp only at h
    simp only [Option.some.injEq] at h
    rw [← h]
    exact ⟨rfl, rfl⟩

/-- Fuzzing only ever touches the interval. -/
theorem apply_fuzzing_frame (s : Scheduler) (rand : ℤ → ℤ → ℤ) (c : Card) :
    (s.apply_fuzzing rand c).stability = c.stability ∧
      (s.apply_fuzzing rand c).difficulty = c.difficulty ∧
      (s.apply_fuzzing rand c).state = c.state ∧
      (s.apply_fuzzing rand c).step = c.step := by
  unfold Scheduler.apply_fuzzing
  split
  · exact ⟨rfl, rfl, rfl, rfl⟩
  · exact ⟨rfl, rfl, rfl, rfl⟩

/-- Fuzzing is the identity off the review state. -/
theorem apply_fuzzing_of_not_review (s : Scheduler) (rand : ℤ → ℤ → ℤ) (c : Card)
    (h : c.state ≠ State.review) : s.apply_fuzzing rand c = c := by
  unfold Scheduler.apply_fuzzing
  rw [if_neg]
  intro hc
  exact h hc.2

/-- Fuzzing is the identity when disabled. -/
theorem apply_fuzzing_of_disabled (s : Scheduler) (rand : ℤ → ℤ → ℤ) (c : Card)
    (h : s.config.enable_fuzzing = false) : s.apply_fuzzing rand c = c := by
  unfold Scheduler.apply_fuzzing
  rw [if_neg]
  intro hc
  rw [h] at hc
  cases hc.1

/-- Splitting a successful `review_card` into its three phases. -/
theorem review_card_spec (s : Scheduler) (rand : ℤ → ℤ → ℤ) (c : Card) (r : Rating) (dt : ℝ)
    (c' : Card) (h : s.review_card rand c r dt = some c') :
    ∃ c1 c2, s.calculate_next_reviewed_state c r dt = some c1 ∧
      s.determine_next_card_state c1 r = some c2 ∧ c' = s.apply_fuzzing rand c2 := by
  unfold Scheduler.review_card at h
  cases h1 : s.calculate_next_reviewed_state c r dt with
  | none => rw [h1] at h; cases h
  | some c1 =>
    rw [h1] at h
    dsimp only at h
    cases h2 : s.determine_next_card_state c1 r with
    | none => rw [h2] at h; cases h
    | some c2 =>
      rw [h2] at h
      simp only [Option.some.injEq] at h
      exact ⟨c1, c2, rfl, h2, h.symm⟩

/-- C2: for every config, rating, elapsed interval and card, whenever
`review_card` returns, the card's stability is at least
`STABILITY_MIN = 0.001` and its difficulty lies in `[1.0, 10.0]`. -/
theorem review_card_invariants (s : Scheduler) (rand : ℤ → ℤ → ℤ) (c : Card) (r : Rating)
    (dt : ℝ) (c' : Card) (h : s.review_card rand c r dt = some c') :
    STABILITY_MIN ≤ c'.stability ∧ MIN_DIFFICULTY ≤ c'.difficulty ∧
      c'.difficulty ≤ MAX_DIFFICULTY := by
  rcases review_card_spec s rand c r dt c' h with ⟨c1, c2, h1, h2, hc⟩
  have hb := calculate_next_reviewed_state_bounds s c r dt c1 h1
  have hf2 := determine_next_card_state_frame s c1 r c2 h2
  have hf3 := apply_fuzzing_frame s rand c2
  rw [hc, hf3.1, hf3.2.1, hf2.1, hf2.2]
  exact hb

/-- `review_card` reads the draw oracle only inside fuzzing, so with
fuzzing disabled any two oracles give the same result. -/
theorem review_card_rand_congr (s : Scheduler) (h : s.config.enable_fuzzing = false)
    (ra rb : ℤ → ℤ → ℤ) (c : Card) (r : Rating) (dt : ℝ) :
    s.review_card ra c r dt = s.review_card rb c r dt := by
  unfold Scheduler.review_card
  cases h1 : s.calculate_next_reviewed_state c r dt with
  | none => rfl
  | some c1 =>
    dsimp only
    cases h2 : s.determine_next_card_state c1 r with
    | none => rfl
    | some c2 =>
      dsimp only
      rw [apply_fuzzing_of_disabled s ra c2 h, apply_fuzzing_of_disabled s rb c2 h]

/-- C9: with `enable_fuzzing = false`, review is deterministic: the same
scheduler, starting card and input sequence produce the same output cards,
whatever the pseudo-random draws (modelled by arbitrary per-call draw
oracles) would have been. -/
theorem review_deterministic_without_fuzzing (s : Scheduler)
    (h : s.config.enable_fuzzing = false) (f g : ℕ → ℤ → ℤ → ℤ) (n m : ℕ) (c : Card)
    (inputs : List (Rating × ℝ)) :
    s.review_seq f n c inputs = s.review_seq g m c inputs := by
  induction inputs generalizing n m c with
  | nil => rfl
  | cons p rest ih =>
    rcases p with ⟨r, dt⟩
    unfold Scheduler.review_seq
    rw [review_card_rand_congr s h (f n) (g m) c r dt]
    cases s.review_card (g m) c r dt with
    | none => rfl
    | some c' => exact ih (n + 1) (m + 1) c'

/-- C3: in Learning or Relearning with a non-empty active step sequence,
rating Again resets the card to Learning at step 0 with interval equal to
the first active step. -/
theorem review_card_again_steps_reset (s : Scheduler) (rand : ℤ → ℤ → ℤ) (c : Card) (dt : ℝ)
    (c' : Card) (hstate : c.state = State.learning ∨ c.state = State.relearning)
    (hne : active_steps s c.state ≠ [])
    (h : s.review_card rand c Rating.again dt = some c') :
    c'.state = State.learning ∧ c'.step = 0 ∧
      c'.interval = (active_steps s c.state).getD 0 0 := by
  have hnotnew : c.state ≠ State.new := by
    rcases hstate with hs | hs <;> rw [hs] <;> exact fun hx => by cases hx
  rcases review_card_spec s rand c Rating.again dt c' h with ⟨c1, c2, h1, h2, hc⟩
  have hf1 := calculate_next_reviewed_state_frame s c Rating.again dt c1 hnotnew h1
  unfold Scheduler.determine_next_card_state at h2
  rcases hstate with hs | hs
  · rw [hf1.1, hs] at h2
    dsimp only at h2
    rw [hs] at hne
    have hne' : s.config.learning_steps ≠ [] := by
      simpa only [active_steps] using hne
    unfold Scheduler.handle_steps at h2
    rw [if_neg hne'] at h2
    dsimp only at h2
    simp only [Option.some.injEq] at h2
    have hc2 : c2.state = State.learning := by rw [← h2]
    rw [hc, apply_fuzzing_of_not_review s rand c2 (by rw [hc2]; exact fun hx => by cases hx)]
    rw [← h2, hs]
    simp [active_steps]
  · rw [hf1.1, hs] at h2
    dsimp only at h2
    rw [hs] at hne
    have hne' : s.config.relearning_steps ≠ [] := by
      simpa only [active_steps] using hne
    unfold Scheduler.handle_steps at h2
    rw [if_neg hne'] at h2
    dsimp only at h2
    simp only [Option.some.injEq] at h2
    have hc2 : c2.state = State.learning := by rw [← h2]
    rw [hc, apply_fuzzing_of_not_review s rand c2 (by rw [hc2]; exact fun hx => by cases hx)]
    rw [← h2, hs]
    simp [active_steps]

/-- C10: a Relearning card rated Good whose incremented step still lies
within the relearning sequence moves to state Learning (not Relearning)
with the incremented step and the relearning step at that index as its
interval; in consequence the next review of the card dispatches on the
learning-step sequence. -/
theorem relearning_good_moves_to_learning (s : Scheduler) (rand : ℤ → ℤ → ℤ) (c : Card)
    (dt : ℝ) (c' : Card) (hstate : c.state = State.relearning)
    (hstep : c.step + 1 < s.config.relearning_steps.length)
    (h : s.review_card rand c Rating.good dt = some c') :
    c'.state = State.learning ∧ c'.step = c.step + 1 ∧
      c'.interval = s.config.relearning_steps.getD (c.step + 1) 0 ∧
      (∀ r2, s.determine_next_card_state c' r2 =
        s.handle_steps c' r2 s.config.learning_steps) := by
  have hnotnew : c.state ≠ State.new := by rw [hstate]; exact fun hx => by cases hx
  rcases review_card_spec s rand c Rating.good dt c' h with ⟨c1, c2, h1, h2, hc⟩
  have hf1 := calculate_next_reviewed_state_frame s c Rating.good dt c1 hnotnew h1
  unfold Scheduler.determine_next_card_state at h2
  rw [hf1.1, hstate] at h2
  dsimp only at h2
  have hne' : s.config.relearning_steps ≠ [] := by
    intro he
    rw [he] at hstep
    exact absurd hstep (by simp)
  unfold Scheduler.handle_steps at h2
  rw [if_neg hne'] at h2
  dsimp only at h2
  rw [hf1.2.1] at h2
  rw [if_neg (not_le.mpr hstep)] at h2
  simp only [Option.some.injEq] at h2
  have hc2 : c2.state = State.learning := by rw [← h2]
  rw [hc, apply_fuzzing_of_not_review s rand c2 (by rw [hc2]; exact fun hx => by cases hx)]
  rw [← h2]
  refine ⟨rfl, rfl, rfl, ?_⟩
  intro r2
  rfl

/-- Witness for `review_card_invariants`: a concrete successful review and
the bounds it yields. -/
theorem review_card_invariants_witness :
    wSched.review_card randA cardNew Rating.again 0 = some cardW2 ∧
      (STABILITY_MIN ≤ cardW2.stability ∧ MIN_DIFFICULTY ≤ cardW2.difficulty ∧
        cardW2.difficulty ≤ MAX_DIFFICULTY) := by
  have h : wSched.review_card randA cardNew Rating.again 0 = some cardW2 := by
    norm_num +decide [Scheduler.review_card, Scheduler.calculate_next_reviewed_state,
      Scheduler.determine_next_card_state, Scheduler.handle_steps, Scheduler.apply_fuzzing,
      initial_stability, initial_difficulty, raw_initial_difficulty,
      clamp_stability, clamp_difficulty, wSched, wConfig, cardNew, cardW2, randA,
      Rating.value, Rating.natValue, MIN_DIFFICULTY, MAX_DIFFICULTY, STABILITY_MIN,
      Real.exp_zero, List.cons_ne_nil]
  exact ⟨h, review_card_invariants wSched randA cardNew Rating.again 0 cardW2 h⟩

/-- Witness for `review_deterministic_without_fuzzing`: a concrete
fuzzing-disabled scheduler gives one result under two different draw
oracles. -/
theorem review_deterministic_without_fuzzing_witness :
    wSched.config.enable_fuzzing = false ∧
      wSched.review_seq randsA 0 cardNew [(Rating.again, 0)] =
        wSched.review_seq randsB 0 cardNew [(Rating.again, 0)] :=
  ⟨rfl, review_deterministic_without_fuzzing wSched rfl randsA randsB 0 0 cardNew
    [(Rating.again, 0)]⟩

/-- Witness for `review_card_again_steps_reset` at a concrete learning
card. -/
theorem review_card_again_steps_reset_witness :
    (cardLearnOne.state = State.learning ∨ cardLearnOne.state = State.relearning) ∧
      active_steps wSched cardLearnOne.state ≠ [] ∧
      wSched.review_card randA cardLearnOne Rating.again 0 = some cardW3 ∧
      (cardW3.state = State.learning ∧ cardW3.step = 0 ∧
        cardW3.interval = (active_steps wSched cardLearnOne.state).getD 0 0) := by
  have h : wSched.review_card randA cardLearnOne Rating.again 0 = some cardW3 := by
    norm_num +decide [Scheduler.review_card, Scheduler.calculate_next_reviewed_state,
      Scheduler.get_card_retrievability, Scheduler.determine_next_card_state,
      Scheduler.handle_steps, Scheduler.apply_fuzzing, short_term_stability, next_difficulty,
      raw_initial_difficulty, clamp_stability, clamp_difficulty, pdiv, ppow,
      wSched, wConfig, cardLearnOne, cardW3, randA,
      Rating.value, Rating.natValue, MIN_DIFFICULTY, MAX_DIFFICULTY, STABILITY_MIN,
      Real.exp_zero, Real.one_rpow, List.cons_ne_nil]
  have hne : active_steps wSched cardLearnOne.state ≠ [] := by
    simp [active_steps, wSched, wConfig, cardLearnOne]
  exact ⟨Or.inl rfl, hne, h,
    review_card_again_steps_reset wSched randA cardLearnOne 0 cardW3 (Or.inl rfl) hne h⟩

/-- Witness for `relearning_good_moves_to_learning` at a concrete
relearning card with two relearning steps. -/
theorem relearning_good_moves_to_learning_witness :
    cardRelearn.state = State.relearning ∧
      cardRelearn.step + 1 < wSched.config.relearning_steps.length ∧
      wSched.review_card randA cardRelearn Rating.good 0 = some cardW10 ∧
      (cardW10.state = State.learning ∧ cardW10.step = cardRelearn.step + 1 ∧
        cardW10.interval = wSched.config.relearning_steps.getD (cardRelearn.step + 1) 0 ∧
        wSched.determine_next_card_state cardW10 Rating.good =
          wSched.handle_steps cardW10 Rating.good wSched.config.learning_steps) := by
  have hstep : cardRelearn.step + 1 < wSched.config.relearning_steps.length := by
    simp [cardRelearn, wSched, wConfig]
  have h : wSched.review_card randA cardRelearn Rating.good 0 = some cardW10 := by
    norm_num +decide [Scheduler.review_card, Scheduler.calculate_next_reviewed_state,
      Scheduler.get_card_retrievability, Scheduler.determine_next_card_state,
      Scheduler.handle_steps, Scheduler.apply_fuzzing, short_term_stability, next_difficulty,
      raw_initial_difficulty, clamp_stability, clamp_difficulty, pdiv, ppow,
      wSched, wConfig, cardRelearn, cardW10, randA,
      Rating.value, Rating.natValue, MIN_DIFFICULTY, MAX_DIFFICULTY, STABILITY_MIN,
      Real.exp_zero, Real.one_rpow, List.cons_ne_nil]
  have hmain := relearning_good_moves_to_learning wSched randA cardRelearn 0 cardW10 rfl hstep h
  exact ⟨rfl, hstep, h, hmain.1, hmain.2.1, hmain.2.2.1, hmain.2.2.2 Rating.good⟩

/-- C7: in `short_term_stability` the growth multiplier is floored at 1
exactly for Good and Easy, so a same-day Good or Easy review of a card with
stability at least `STABILITY_MIN` never shrinks it, while for Again and
Hard the result is the unfloored multiplier applied and clamped. -/
theorem short_term_stability_floor (w : List ℝ) (st : ℝ) (r : Rating) :
    (∀ x, (r = Rating.good ∨ r = Rating.easy) → STABILITY_MIN ≤ st →
      short_term_stability w st r = some x → st ≤ x) ∧
    ((r = Rating.again ∨ r = Rating.hard) → 0 < st →
      short_term_stability w st r =
        some (clamp_stability (st * (Real.exp (w.getD 17 0 * (r.value - 3 + w.getD 18 0)) *
          st ^ (-(w.getD 19 0)))))) := by
  constructor
  · intro x hr hmin h
    have hpos : (0 : ℝ) < st := lt_of_lt_of_le (by norm_num [STABILITY_MIN]) hmin
    unfold short_term_stability at h
    rw [ppow_of_pos hpos] at h
    dsimp only at h
    rw [if_pos hr] at h
    simp only [Option.some.injEq] at h
    rw [← h]
    calc st = st * 1 := (mul_one st).symm
      _ ≤ st * max (Real.exp (w.getD 17 0 * (r.value - 3 + w.getD 18 0)) *
            st ^ (-(w.getD 19 0))) 1 :=
          mul_le_mul_of_nonneg_left (le_max_right _ _) hpos.le
      _ ≤ _ := le_max_left _ _
  · intro hr hpos
    have hne : ¬ (r = Rating.good ∨ r = Rating.easy) := by
      rcases hr with h | h <;> rw [h] <;> rintro (hx | hx) <;> cases hx
    unfold short_term_stability
    rw [ppow_of_pos hpos]
    dsimp only
    rw [if_neg hne]

/-- The equality half of the interval formula, shared by the interval
claims. -/
theorem next_interval_eq (factor retention decay : ℝ) (maxI : ℤ) (st : ℝ)
    (hf : factor ≠ 0) (hd : decay ≠ 0) (hr : 0 < retention) :
    next_interval factor retention decay maxI st =
      some (86400 * ((spec_interval factor retention decay maxI st : ℤ) : ℝ)) := by
  unfold next_interval
  rw [pdiv_of_ne st hf, pdiv_of_ne 1 hd]
  dsimp only
  rw [ppow_of_pos hr]
  rfl

/-- C4: the pre-fuzz interval computed by `next_interval` is exactly the
spec formula `(stability/factor) * (retention^(1/decay) - 1)` in days,
rounded and clamped to `[1, maximum_interval]`; and whenever
`maximum_interval ≥ 1` the day count indeed lies in that range. -/
theorem next_interval_matches_spec (factor retention decay : ℝ) (maxI : ℤ) (st : ℝ)
    (hf : factor ≠ 0) (hd : decay ≠ 0) (hr : 0 < retention) :
    next_interval factor retention decay maxI st =
      some (86400 * ((spec_interval factor retention decay maxI st : ℤ) : ℝ)) ∧
      (1 ≤ maxI → 1 ≤ spec_interval factor retention decay maxI st ∧
        spec_interval factor retention decay maxI st ≤ maxI) := by
  refine ⟨next_interval_eq factor retention decay maxI st hf hd hr, ?_⟩
  intro hmax
  unfold spec_interval
  exact ⟨le_min (le_max_left _ _) hmax, min_le_right _ _⟩

/-- Witness for `next_interval_matches_spec` at concrete parameters. -/
theorem next_interval_matches_spec_witness :
    ((1 : ℝ) ≠ 0 ∧ (-1 : ℝ) ≠ 0 ∧ (0 : ℝ) < 1 / 2 ∧ (1 : ℤ) ≤ 36500) ∧
      next_interval 1 (1 / 2) (-1) 36500 1 =
        some (86400 * ((spec_interval 1 (1 / 2) (-1) 36500 1 : ℤ) : ℝ)) ∧
      (1 ≤ spec_interval 1 (1 / 2) (-1) 36500 1 ∧
        spec_interval 1 (1 / 2) (-1) 36500 1 ≤ 36500) := by
  have h := next_interval_matches_spec 1 (1 / 2) (-1) 36500 1 (by norm_num) (by norm_num)
    (by norm_num)
  exact ⟨⟨by norm_num, by norm_num, by norm_num, by norm_num⟩, h.1, h.2 (by norm_num)⟩

/-- A successful `plog` call means the argument was positive and the result
its logarithm. -/
theorem plog_eq_some {x l : ℝ} (h : plog x = some l) : 0 < x ∧ l = Real.log x := by
  unfold plog at h
  by_cases hx : 0 < x
  · rw [if_pos hx] at h
    simp only [Option.some.injEq] at h
    exact ⟨hx, h.symm⟩
  · rw [if_neg hx] at h
    cases h

/-- C6: every accepted weight vector is normalized exactly as the spec
formulas describe: 21-element vectors unchanged, 19-element vectors with
`[0, 0.5]` appended, 17-element vectors via the legacy transform of
`spec_transform_17`. -/
theorem check_and_fill_matches_spec (w : List PyFloat) (w' : List ℝ)
    (h : check_and_fill_parameters w = .ok w') :
    (w.length = 21 → w' = w.map PyFloat.toReal) ∧
    (w.length = 19 → w' = w.map PyFloat.toReal ++ [0, 0.5]) ∧
    (w.length = 17 → w' = spec_transform_17 (w.map PyFloat.toReal)) := by
  unfold check_and_fill_parameters at h
  by_cases hfin : w.any (fun v => !v.isFinite)
  · rw [if_pos hfin] at h
    cases h
  · rw [if_neg hfin] at h
    dsimp only at h
    rw [List.length_map] at h
    refine ⟨?_, ?_, ?_⟩ <;> intro hlen <;> rw [hlen] at h
    · rw [if_pos rfl] at h
      simp only [Except.ok.injEq] at h
      exact h.symm
    · rw [if_neg (by norm_num), if_pos rfl] at h
      simp only [Except.ok.injEq] at h
      exact h.symm
    · rw [if_neg (by norm_num), if_neg (by norm_num), if_pos rfl] at h
      cases hp : plog ((w.map PyFloat.toReal).getD 5 0 * 3 + 1) with
      | none => rw [hp] at h; cases h
      | some l =>
        rw [hp] at h
        simp only [Except.ok.injEq] at h
        rcases plog_eq_some hp with ⟨-, hl⟩
        rw [← h, hl]
        rfl

/-- Witness for `short_term_stability_floor`: both halves applied at
concrete inputs. -/
theorem short_term_stability_floor_witness :
    (STABILITY_MIN ≤ (1 : ℝ) ∧ short_term_stability [] 1 Rating.good = some 1 ∧
      (1 : ℝ) ≤ 1) ∧
      short_term_stability [] 1 Rating.again =
        some (clamp_stability (1 * (Real.exp (([] : List ℝ).getD 17 0 *
          (Rating.again.value - 3 + ([] : List ℝ).getD 18 0)) *
          (1 : ℝ) ^ (-(([] : List ℝ).getD 19 0))))) := by
  have hmin : STABILITY_MIN ≤ (1 : ℝ) := by norm_num [STABILITY_MIN]
  have he : short_term_stability [] 1 Rating.good = some 1 := by
    norm_num +decide [short_term_stability, ppow, clamp_stability, STABILITY_MIN,
      Rating.value, Rating.natValue, Real.exp_zero, Real.one_rpow]
  exact ⟨⟨hmin, he, (short_term_stability_floor [] 1 Rating.good).1 1 (Or.inl rfl) hmin he⟩,
    (short_term_stability_floor [] 1 Rating.again).2 (Or.inl rfl) one_pos⟩

/-- Witness for `check_and_fill_matches_spec`: a concrete 17-element vector
is accepted and its normal form matches the spec transform. -/
theorem check_and_fill_matches_spec_witness :
    wZeros17.length = 17 ∧ check_and_fill_parameters wZeros17 = .ok wZeros17Out ∧
      wZeros17Out = spec_transform_17 (wZeros17.map PyFloat.toReal) := by
  have h : check_and_fill_parameters wZeros17 = .ok wZeros17Out := by
    unfold check_and_fill_parameters wZeros17 wZeros17Out
    norm_num [PyFloat.isFinite, PyFloat.toReal, plog, Real.log_one]
    rfl
  exact ⟨rfl, h, (check_and_fill_matches_spec wZeros17 wZeros17Out h).2.2 rfl⟩

/-- Normalization always returns exactly 21 weights when it succeeds. -/
theorem check_and_fill_length (w : List PyFloat) (w' : List ℝ)
    (h : check_and_fill_parameters w = .ok w') : w'.length = 21 := by
  unfold check_and_fill_parameters at h
  by_cases hfin : w.any (fun v => !v.isFinite)
  · rw [if_pos hfin] at h
    cases h
  · rw [if_neg hfin] at h
    dsimp only at h
    by_cases h21 : (w.map PyFloat.toReal).length = 21
    · rw [if_pos h21] at h
      simp only [Except.ok.injEq] at h
      rw [← h]
      exact h21
    · rw [if_neg h21] at h
      by_cases h19 : (w.map PyFloat.toReal).length = 19
      · rw [if_pos h19] at h
        simp only [Except.ok.injEq] at h
        rw [← h]
        simp [h19]
      · rw [if_neg h19] at h
        by_cases h17 : (w.map PyFloat.toReal).length = 17
        · rw [if_pos h17] at h
          cases hp : plog ((w.map PyFloat.toReal).getD 5 0 * 3 + 1) with
          | none => rw [hp] at h; cases h
          | some l =>
            rw [hp] at h
            simp only [Except.ok.injEq] at h
            rw [← h]
            simp [h17]
        · rw [if_neg h17] at h
          cases h

/-- C5 counterexample: a 21-element vector of finite weights with
`w[20] = 0` makes construction raise a `ZeroDivisionError` at
`1.0 / self.decay`, so construction does not succeed on every finite
17/19/21-element vector and the two documented `ValueError`s are not the
only error points. -/
theorem scheduler_init_zero_w20_fails :
    Scheduler.init cfgZeros21 = Except.error FsrsError.zeroDivisionError := by
  unfold Scheduler.init
  rw [show check_and_fill_parameters cfgZeros21.w = .ok (List.replicate 21 (0 : ℝ)) from rfl]
  dsimp only
  rw [show (List.replicate 21 (0 : ℝ)).getD 20 0 = 0 from rfl]
  rw [if_pos (by norm_num)]

/-- C5 corrected: construction fails with `InvalidParameters` when a weight
is non-finite, with `InvalidParameterCount` when all weights are finite but
the count is not 17, 19 or 21; whenever normalization succeeds it yields
exactly 21 (finite) weights and construction succeeds precisely when the
normalized `w[20]` is non-zero, raising a `ZeroDivisionError` when it is
zero. -/
theorem scheduler_init_spec (cfg : SchedulerConfig) :
    (cfg.w.any (fun v => !v.isFinite) = true →
      Scheduler.init cfg = .error .invalidParameters) ∧
    (cfg.w.any (fun v => !v.isFinite) = false →
      cfg.w.length ≠ 17 → cfg.w.length ≠ 19 → cfg.w.length ≠ 21 →
      Scheduler.init cfg = .error .invalidParameterCount) ∧
    (∀ w', check_and_fill_parameters cfg.w = .ok w' →
      w'.length = 21 ∧
      (w'.getD 20 0 ≠ 0 →
        Scheduler.init cfg =
          .ok { config := cfg, w := w', decay := -(w'.getD 20 0)
              , factor := (0.9 : ℝ) ^ (1 / -(w'.getD 20 0)) - 1 }) ∧
      (w'.getD 20 0 = 0 → Scheduler.init cfg = .error .zeroDivisionError)) := by
  refine ⟨?_, ?_, ?_⟩
  · intro hfin
    have hc : check_and_fill_parameters cfg.w = .error .invalidParameters := by
      unfold check_and_fill_parameters
      rw [if_pos hfin]
    unfold Scheduler.init
    rw [hc]
  · intro hfin h17 h19 h21
    have hc : check_and_fill_parameters cfg.w = .error .invalidParameterCount := by
      unfold check_and_fill_parameters
      rw [if_neg (by rw [hfin]; exact Bool.false_ne_true)]
      dsimp only
      rw [List.length_map]
      rw [if_neg h21, if_neg h19, if_neg h17]
    unfold Scheduler.init
    rw [hc]
  · intro w' hok
    refine ⟨check_and_fill_length cfg.w w' hok, ?_, ?_⟩ <;> intro h20 <;>
      unfold Scheduler.init <;> rw [hok] <;> dsimp only
    · rw [if_neg (by simpa using h20)]
    · rw [if_pos (by simpa using h20)]

/-- Witness for `scheduler_init_spec`: the default configuration is
accepted and produces the expected scheduler state. -/
theorem scheduler_init_spec_witness :
    check_and_fill_parameters DEFAULT_CONFIG.w = .ok defaultW ∧
      defaultW.getD 20 0 ≠ 0 ∧ defaultW.length = 21 ∧
      Scheduler.init DEFAULT_CONFIG = .ok defaultSched := by
  have hok : check_and_fill_parameters DEFAULT_CONFIG.w = .ok defaultW := rfl
  have hne : defaultW.getD 20 0 ≠ 0 := by
    rw [show defaultW.getD 20 0 = 0.1542 from rfl]
    norm_num
  have h := (scheduler_init_spec DEFAULT_CONFIG).2.2 defaultW hok
  exact ⟨hok, hne, h.1, h.2.1 hne⟩

/-- Construction succeeds on the default configuration and yields
`defaultSched`. -/
theorem scheduler_init_default : Scheduler.init DEFAULT_CONFIG = .ok defaultSched := by
  unfold Scheduler.init
  rw [show check_and_fill_parameters DEFAULT_CONFIG.w = .ok defaultW from rfl]
  dsimp only
  rw [if_neg (show ¬ -(defaultW.getD 20 0) = 0 by
    rw [show defaultW.getD 20 0 = 0.1542 from rfl]
    norm_num)]
  rfl

/-- C1 counterexample: the validly constructed default scheduler raises
(`ZeroDivisionError` in `_get_card_retrievability`) on a learning card
whose stability is 0, although all its numeric fields are finite. -/
theorem review_card_zero_stability_fails :
    (Scheduler.init DEFAULT_CONFIG).map
      (fun s => s.review_card randA cardLearnZero Rating.good 0) = Except.ok none := by
  rw [scheduler_init_default]
  have hrev : defaultSched.review_card randA cardLearnZero Rating.good 0 = none := by
    simp +decide [Scheduler.review_card, Scheduler.calculate_next_reviewed_state,
      Scheduler.get_card_retrievability, cardLearnZero, pdiv]
  simp [Except.map, hrev]

/-!  Totality of the review pipeline under the corrected hypotheses. -/

theorem factor_pos_of_decay_neg (s : Scheduler) (hdec : s.decay < 0)
    (hfac : s.factor = (0.9 : ℝ) ^ (1 / s.decay) - 1) : 0 < s.factor := by
  rw [hfac]
  have h1 : 1 / s.decay < 0 := one_div_neg.mpr hdec
  have h2 := Real.one_lt_rpow_of_pos_of_lt_one_of_neg
    (by norm_num : (0 : ℝ) < 0.9) (by norm_num : (0.9 : ℝ) < 1) h1
  linarith

theorem get_card_retrievability_total (s : Scheduler) (c : Card) (dt : ℝ)
    (hfac : 0 ≤ s.factor) (hstab : 0 < c.stability) :
    ∃ v, s.get_card_retrievability c dt = some v := by
  unfold Scheduler.get_card_retrievability
  dsimp only
  rw [pdiv_of_ne _ (ne_of_gt hstab)]
  dsimp only
  have hq : 0 ≤ s.factor * max 0 (dt / 86400) / c.stability :=
    div_nonneg (mul_nonneg hfac (le_max_left 0 _)) hstab.le
  rw [ppow_of_pos (by linarith : (0 : ℝ) < 1 + s.factor * max 0 (dt / 86400) / c.stability)]
  exact ⟨_, rfl⟩

theorem short_term_stability_total (w : List ℝ) (st : ℝ) (r : Rating) (hst : 0 < st) :
    ∃ v, short_term_stability w st r = some v := by
  unfold short_term_stability
  rw [ppow_of_pos hst]
  exact ⟨_, rfl⟩

theorem next_stability_total (w : List ℝ) (d st retr : ℝ) (r : Rating)
    (hd : 0 < d) (hst : 0 < st) :
    ∃ v, next_stability w d st retr r = some v := by
  unfold next_stability
  by_cases hr : r = Rating.again
  · rw [if_pos hr]
    unfold next_forget_stability
    rw [ppow_of_pos hd, ppow_of_pos (by linarith : (0 : ℝ) < st + 1)]
    exact ⟨_, rfl⟩
  · rw [if_neg hr]
    unfold next_recall_stability
    dsimp only
    rw [ppow_of_pos hst]
    exact ⟨_, rfl⟩

theorem to_review_state_total (s : Scheduler) (c : Card)
    (hfac : s.factor ≠ 0) (hdec : s.decay ≠ 0) (hret : 0 < s.config.desired_retention) :
    ∃ c2, s.to_review_state c = some c2 := by
  unfold Scheduler.to_review_state Scheduler.calculate_next_review_interval
  rw [next_interval_eq _ _ _ _ _ hfac hdec hret]
  exact ⟨_, rfl⟩

theorem hard_interval_step_total (s : Scheduler) (c : Card) (steps : List ℝ)
    (hne : steps ≠ []) (hstep : c.step ≠ 0 → c.step < steps.length) :
    ∃ i, s.hard_interval_step c steps = some i := by
  unfold Scheduler.hard_interval_step
  by_cases h1 : c.step = 0 ∧ steps.length = 1
  · rw [if_pos h1]
    exact ⟨_, rfl⟩
  · rw [if_neg h1]
    by_cases h2 : c.step = 0 ∧ 1 < steps.length
    · rw [if_pos h2]
      exact ⟨_, rfl⟩
    · rw [if_neg h2]
      have hlt : c.step < steps.length := by
        by_cases h0 : c.step = 0
        · exfalso
          have hlen : steps.length ≠ 0 := fun hz => hne (List.eq_nil_of_length_eq_zero hz)
          rcases Nat.lt_or_ge 1 steps.length with hgt | hle
          · exact h2 ⟨h0, hgt⟩
          · exact h1 ⟨h0, le_antisymm hle (Nat.one_le_iff_ne_zero.mpr hlen)⟩
        · exact hstep h0
      exact ⟨_, List.getElem?_eq_getElem hlt⟩

theorem handle_steps_total (s : Scheduler) (c : Card) (r : Rating) (steps : List ℝ)
    (hfac : s.factor ≠ 0) (hdec : s.decay ≠ 0) (hret : 0 < s.config.desired_retention)
    (hstep : steps ≠ [] → r = Rating.hard → c.step ≠ 0 → c.step < steps.length) :
    ∃ c2, s.handle_steps c r steps = some c2 := by
  unfold Scheduler.handle_steps
  by_cases he : steps = []
  · rw [if_pos he]
    exact to_review_state_total s c hfac hdec hret
  · rw [if_neg he]
    cases r with
    | again => exact ⟨_, rfl⟩
    | hard =>
      obtain ⟨i, hi⟩ := hard_interval_step_total s c steps he (hstep he rfl)
      exact ⟨{ c with interval := i }, by rw [hi]⟩
    | good =>
      dsimp only
      by_cases hlen : steps.length ≤ c.step + 1
      · rw [if_pos hlen]
        exact to_review_state_total s c hfac hdec hret
      · rw [if_neg hlen]
        exact ⟨_, rfl⟩
    | easy => exact to_review_state_total s c hfac hdec hret

theorem determine_next_card_state_total (s : Scheduler) (c : Card) (r : Rating)
    (hfac : s.factor ≠ 0) (hdec : s.decay ≠ 0) (hret : 0 < s.config.desired_retention)
    (hstepL : c.state = State.learning → r = Rating.hard → s.config.learning_steps ≠ [] →
      c.step ≠ 0 → c.step < s.config.learning_steps.length)
    (hstepR : c.state = State.relearning → r = Rating.hard → s.config.relearning_steps ≠ [] →
      c.step ≠ 0 → c.step < s.config.relearning_steps.length) :
    ∃ c2, s.determine_next_card_state c r = some c2 := by
  unfold Scheduler.determine_next_card_state
  cases hs : c.state with
  | learning =>
    exact handle_steps_total s c r _ hfac hdec hret (fun hne hr => hstepL hs hr hne)
  | relearning =>
    exact handle_steps_total s c r _ hfac hdec hret (fun hne hr => hstepR hs hr hne)
  | review =>
    by_cases hcond : r = Rating.again ∧ s.config.relearning_steps ≠ []
    · rw [if_pos hcond]
      exact ⟨_, rfl⟩
    · rw [if_neg hcond]
      exact to_review_state_total s c hfac hdec hret
  | new => exact ⟨c, rfl⟩

theorem calculate_next_reviewed_state_total (s : Scheduler) (c : Card) (r : Rating) (dt : ℝ)
    (hfac : 0 ≤ s.factor)
    (hstab : c.state ≠ State.new → 0 < c.stability)
    (hdiff : c.state ≠ State.new → 0 < c.difficulty) :
    ∃ c1, s.calculate_next_reviewed_state c r dt = some c1 := by
  unfold Scheduler.calculate_next_reviewed_state
  by_cases hnew : c.state = State.new
  · rw [if_pos hnew]
    exact ⟨_, rfl⟩
  · rw [if_neg hnew]
    obtain ⟨retr, hretr⟩ := get_card_retrievability_total s c dt hfac (hstab hnew)
    rw [hretr]
    dsimp only
    by_cases hdt : dt < 86400
    · rw [if_pos hdt]
      obtain ⟨ns, hns⟩ := short_term_stability_total s.w c.stability r (hstab hnew)
      rw [hns]
      exact ⟨_, rfl⟩
    · rw [if_neg hdt]
      obtain ⟨ns, hns⟩ :=
        next_stability_total s.w c.difficulty c.stability retr r (hdiff hnew) (hstab hnew)
      rw [hns]
      exact ⟨_, rfl⟩

/-- C1 corrected: `review_card` succeeds provided additionally that the
scheduler's `decay` is negative (`w[20] > 0`) with `factor` derived from
it, `desired_retention` is positive, a non-new card has positive stability
and difficulty, and a card rated Hard at a non-zero step in
Learning/Relearning with a non-empty step list has its step inside that
list.  (As stated the claim is false: stability 0 divides by zero, see
`review_card_zero_stability_fails`.) -/
theorem review_card_total_of_wellformed (s : Scheduler) (rand : ℤ → ℤ → ℤ) (c : Card)
    (r : Rating) (dt : ℝ)
    (hdec : s.decay < 0)
    (hfac : s.factor = (0.9 : ℝ) ^ (1 / s.decay) - 1)
    (hret : 0 < s.config.desired_retention)
    (hstab : c.state ≠ State.new → 0 < c.stability)
    (hdiff : c.state ≠ State.new → 0 < c.difficulty)
    (hstepL : c.state = State.learning → r = Rating.hard → s.config.learning_steps ≠ [] →
      c.step ≠ 0 → c.step < s.config.learning_steps.length)
    (hstepR : c.state = State.relearning → r = Rating.hard → s.config.relearning_steps ≠ [] →
      c.step ≠ 0 → c.step < s.config.relearning_steps.length) :
    ∃ c', s.review_card rand c r dt = some c' := by
  have hfac0 : 0 < s.factor := factor_pos_of_decay_neg s hdec hfac
  obtain ⟨c1, h1⟩ := calculate_next_reviewed_state_total s c r dt hfac0.le hstab hdiff
  have hc1 : (c1.state = State.learning ∧ c1.step = 0) ∨
      (c1.state = c.state ∧ c1.step = c.step) := by
    by_cases hnew : c.state = State.new
    · rcases calculate_next_reviewed_state_spec s c r dt c1 h1 with ⟨-, hc⟩ | ⟨hne, -⟩
      · rw [hc]
        exact Or.inl ⟨rfl, rfl⟩
      · exact absurd hnew hne
    · have hf := calculate_next_reviewed_state_frame s c r dt c1 hnew h1
      exact Or.inr ⟨hf.1, hf.2.1⟩
  have hstepL1 : c1.state = State.learning → r = Rating.hard →
      s.config.learning_steps ≠ [] → c1.step ≠ 0 →
      c1.step < s.config.learning_steps.length := by
    intro hsL hr hne h0
    rcases hc1 with ⟨-, hstep0⟩ | ⟨hst, hstep⟩
    · exact absurd hstep0 h0
    · rw [hstep]
      exact hstepL (hst.symm.trans hsL) hr hne (fun hz => h0 (hstep.trans hz))
  have hstepR1 : c1.state = State.relearning → r = Rating.hard →
      s.config.relearning_steps ≠ [] → c1.step ≠ 0 →
      c1.step < s.config.relearning_steps.length := by
    intro hsR hr hne h0
    rcases hc1 with ⟨hstL, -⟩ | ⟨hst, hstep⟩
    · rw [hstL] at hsR
      cases hsR
    · rw [hstep]
      exact hstepR (hst.symm.trans hsR) hr hne (fun hz => h0 (hstep.trans hz))
  obtain ⟨c2, h2⟩ := determine_next_card_state_total s c1 r (ne_of_gt hfac0) (ne_of_lt hdec)
    hret hstepL1 hstepR1
  refine ⟨s.apply_fuzzing rand c2, ?_⟩
  unfold Scheduler.review_card
  rw [h1]
  dsimp only
  rw [h2]

/-- Witness for `review_card_total_of_wellformed`: a concrete wellformed
scheduler and card, rated Hard. -/
theorem review_card_total_of_wellformed_witness :
    (wSched.decay < 0 ∧ wSched.factor = (0.9 : ℝ) ^ (1 / wSched.decay) - 1 ∧
      0 < wSched.config.desired_retention ∧ 0 < cardLearnOne.stability ∧
      0 < cardLearnOne.difficulty) ∧
      (wSched.review_card randA cardLearnOne Rating.hard 0).isSome = true := by
  obtain ⟨c', hc⟩ := review_card_total_of_wellformed wSched randA cardLearnOne Rating.hard 0
    (by norm_num [wSched]) rfl (by norm_num [wSched, wConfig])
    (fun _ => by norm_num [cardLearnOne]) (fun _ => by norm_num [cardLearnOne])
    (fun _ _ _ h0 => absurd rfl h0)
    (fun hs => by simp [cardLearnOne] at hs)
  refine ⟨⟨by norm_num [wSched], rfl, by norm_num [wSched, wConfig],
    by norm_num [cardLearnOne], by norm_num [cardLearnOne]⟩, ?_⟩
  rw [hc]
  rfl

/-!  Monotonicity of Python rounding and of the interval formula. -/

theorem pyRound_eq_floor {x : ℝ} (h1 : Int.fract x = 1 / 2) (h2 : Even ⌊x⌋) :
    pyRound x = ⌊x⌋ := by
  unfold pyRound
  rw [if_pos h1, if_pos h2]

theorem pyRound_eq_round {x : ℝ} (h : ¬(Int.fract x = 1 / 2 ∧ Even ⌊x⌋)) :
    pyRound x = round x := by
  unfold pyRound
  by_cases h1 : Int.fract x = 1 / 2
  · rw [if_pos h1, if_neg (fun he => h ⟨h1, he⟩)]
    have hfr : x - ⌊x⌋ = 1 / 2 := by
      have := h1
      unfold Int.fract at this
      exact this
    have hx : x + 1 / 2 = ((⌊x⌋ + 1 : ℤ) : ℝ) := by
      push_cast
      linarith
    rw [round_eq, hx, Int.floor_intCast]
  · rw [if_neg h1]

theorem floor_le_pyRound (x : ℝ) : ⌊x⌋ ≤ pyRound x := by
  by_cases h : Int.fract x = 1 / 2 ∧ Even ⌊x⌋
  · rw [pyRound_eq_floor h.1 h.2]
  · rw [pyRound_eq_round h, round_eq]
    exact Int.floor_mono (by linarith)

theorem pyRound_le_floor_add_one (x : ℝ) : pyRound x ≤ ⌊x⌋ + 1 := by
  by_cases h : Int.fract x = 1 / 2 ∧ Even ⌊x⌋
  · rw [pyRound_eq_floor h.1 h.2]
    omega
  · rw [pyRound_eq_round h, round_eq]
    calc ⌊x + 1 / 2⌋ ≤ ⌊x + 1⌋ := Int.floor_mono (by linarith)
      _ = ⌊x⌋ + 1 := Int.floor_add_one x

theorem pyRound_mono {x y : ℝ} (h : x ≤ y) : pyRound x ≤ pyRound y := by
  rcases lt_or_eq_of_le (Int.floor_mono h) with hf | hf
  · calc pyRound x ≤ ⌊x⌋ + 1 := pyRound_le_floor_add_one x
      _ ≤ ⌊y⌋ := by omega
      _ ≤ pyRound y := floor_le_pyRound y
  · by_cases hty : Int.fract y = 1 / 2 ∧ Even ⌊y⌋
    · rw [pyRound_eq_floor hty.1 hty.2, ← hf]
      by_cases htx : Int.fract x = 1 / 2 ∧ Even ⌊x⌋
      · rw [pyRound_eq_floor htx.1 htx.2]
      · rw [pyRound_eq_round htx, round_eq]
        have hfr : Int.fract x ≤ Int.fract y := by
          unfold Int.fract
          rw [← hf]
          linarith
        have hne : Int.fract x ≠ 1 / 2 := fun he => htx ⟨he, by rw [hf]; exact hty.2⟩
        have hlt : Int.fract x < 1 / 2 := lt_of_le_of_ne (hfr.trans (le_of_eq hty.1)) hne
        have hd : x - ⌊x⌋ < 1 / 2 := by
          have := hlt
          unfold Int.fract at this
          exact this
        have hfl : ⌊x + 1 / 2⌋ < ⌊x⌋ + 1 := Int.floor_lt.mpr (by push_cast; linarith)
        omega
    · rw [pyRound_eq_round hty]
      by_cases htx : Int.fract x = 1 / 2 ∧ Even ⌊x⌋
      · rw [pyRound_eq_floor htx.1 htx.2]
        calc ⌊x⌋ = ⌊y⌋ := hf
          _ ≤ round y := by rw [round_eq]; exact Int.floor_mono (by linarith)
      · rw [pyRound_eq_round htx, round_eq, round_eq]
        exact Int.floor_mono (by linarith)

theorem pyRound_nonpos {x : ℝ} (h : x < 0) : pyRound x ≤ 0 := by
  have h1 : ⌊x⌋ < 0 := Int.floor_lt.mpr (by exact_mod_cast h)
  have h2 := pyRound_le_floor_add_one x
  omega

/-- The sign of `factor = 0.9 ^ (1/decay) - 1`. -/
theorem derived_factor_pos {d : ℝ} (hd : d < 0) : 0 < (0.9 : ℝ) ^ (1 / d) - 1 := by
  have h1 : 1 / d < 0 := one_div_neg.mpr hd
  have h2 := Real.one_lt_rpow_of_pos_of_lt_one_of_neg
    (by norm_num : (0 : ℝ) < 0.9) (by norm_num : (0.9 : ℝ) < 1) h1
  linarith

theorem derived_factor_neg {d : ℝ} (hd : 0 < d) : (0.9 : ℝ) ^ (1 / d) - 1 < 0 := by
  have h1 : 0 < 1 / d := by positivity
  have h2 := Real.rpow_lt_one (by norm_num : (0 : ℝ) ≤ 0.9) (by norm_num : (0.9 : ℝ) < 1) h1
  linarith

/-- With `factor` derived from `decay` as the scheduler does, the clamped
day count is antitone in the desired retention. -/
theorem spec_interval_anti (decay s : ℝ) (maxI : ℤ) (r1 r2 : ℝ)
    (hd : decay ≠ 0) (h1 : 0 < r1) (h12 : r1 < r2) (h2 : r2 < 1) :
    spec_interval ((0.9 : ℝ) ^ (1 / decay) - 1) r2 decay maxI s ≤
      spec_interval ((0.9 : ℝ) ^ (1 / decay) - 1) r1 decay maxI s := by
  unfold spec_interval spec_interval_days
  rcases lt_trichotomy decay 0 with hdneg | hdz | hdpos
  · have hfp : 0 < (0.9 : ℝ) ^ (1 / decay) - 1 := derived_factor_pos hdneg
    have ht : 1 / decay < 0 := one_div_neg.mpr hdneg
    rcases le_or_lt 0 s with hs | hs
    · have hrp : r2 ^ (1 / decay) ≤ r1 ^ (1 / decay) :=
        Real.rpow_le_rpow_of_nonpos h1 h12.le ht.le
      have hdays : s / ((0.9 : ℝ) ^ (1 / decay) - 1) * (r2 ^ (1 / decay) - 1) ≤
          s / ((0.9 : ℝ) ^ (1 / decay) - 1) * (r1 ^ (1 / decay) - 1) :=
        mul_le_mul_of_nonneg_left (by linarith) (div_nonneg hs hfp.le)
      exact min_le_min (max_le_max le_rfl (pyRound_mono hdays)) le_rfl
    · have hgt1 : 1 < r1 ^ (1 / decay) :=
        Real.one_lt_rpow_of_pos_of_lt_one_of_neg h1 (lt_trans h12 h2) ht
      have hgt2 : 1 < r2 ^ (1 / decay) :=
        Real.one_lt_rpow_of_pos_of_lt_one_of_neg (lt_trans h1 h12) h2 ht
      have hn1 : s / ((0.9 : ℝ) ^ (1 / decay) - 1) * (r1 ^ (1 / decay) - 1) < 0 :=
        mul_neg_of_neg_of_pos (div_neg_of_neg_of_pos hs hfp) (by linarith)
      have hn2 : s / ((0.9 : ℝ) ^ (1 / decay) - 1) * (r2 ^ (1 / decay) - 1) < 0 :=
        mul_neg_of_neg_of_pos (div_neg_of_neg_of_pos hs hfp) (by linarith)
      rw [max_eq_left ((pyRound_nonpos hn1).trans (by norm_num)),
        max_eq_left ((pyRound_nonpos hn2).trans (by norm_num))]
  · exact absurd hdz hd
  · have hfn : (0.9 : ℝ) ^ (1 / decay) - 1 < 0 := derived_factor_neg hdpos
    have ht : 0 < 1 / decay := by positivity
    rcases le_or_lt 0 s with hs | hs
    · have hrp : r1 ^ (1 / decay) ≤ r2 ^ (1 / decay) :=
        Real.rpow_le_rpow h1.le h12.le ht.le
      have hdays : s / ((0.9 : ℝ) ^ (1 / decay) - 1) * (r2 ^ (1 / decay) - 1) ≤
          s / ((0.9 : ℝ) ^ (1 / decay) - 1) * (r1 ^ (1 / decay) - 1) :=
        mul_le_mul_of_nonpos_left (by linarith)
          (div_nonpos_iff.mpr (Or.inl ⟨hs, hfn.le⟩))
      exact min_le_min (max_le_max le_rfl (pyRound_mono hdays)) le_rfl
    · have hlt1 : r1 ^ (1 / decay) < 1 :=
        Real.rpow_lt_one h1.le (lt_trans h12 h2) ht
      have hlt2 : r2 ^ (1 / decay) < 1 :=
        Real.rpow_lt_one (lt_trans h1 h12).le h2 ht
      have hn1 : s / ((0.9 : ℝ) ^ (1 / decay) - 1) * (r1 ^ (1 / decay) - 1) < 0 :=
        mul_neg_of_pos_of_neg (div_pos_of_neg_of_neg hs hfn) (by linarith)
      have hn2 : s / ((0.9 : ℝ) ^ (1 / decay) - 1) * (r2 ^ (1 / decay) - 1) < 0 :=
        mul_neg_of_pos_of_neg (div_pos_of_neg_of_neg hs hfn) (by linarith)
      rw [max_eq_left ((pyRound_nonpos hn1).trans (by norm_num)),
        max_eq_left ((pyRound_nonpos hn2).trans (by norm_num))]

/-- C8: for fixed stability and a scheduler-derived `factor`, the pre-fuzz
interval is non-increasing in `desired_retention`: for `0 < r1 < r2 < 1`
both intervals are defined and the one at `r2` is no longer than the one
at `r1`. -/
theorem next_interval_antitone_in_retention (decay s : ℝ) (maxI : ℤ) (r1 r2 : ℝ)
    (hd : decay ≠ 0) (h1 : 0 < r1) (h12 : r1 < r2) (h2 : r2 < 1) :
    ∃ i1 i2, next_interval ((0.9 : ℝ) ^ (1 / decay) - 1) r1 decay maxI s = some i1 ∧
      next_interval ((0.9 : ℝ) ^ (1 / decay) - 1) r2 decay maxI s = some i2 ∧ i2 ≤ i1 := by
  have hf : (0.9 : ℝ) ^ (1 / decay) - 1 ≠ 0 := by
    rcases lt_or_gt_of_ne hd with hneg | hpos
    · exact ne_of_gt (derived_factor_pos hneg)
    · exact ne_of_lt (derived_factor_neg hpos)
  refine ⟨_, _, next_interval_eq _ _ _ _ _ hf hd h1,
    next_interval_eq _ _ _ _ _ hf hd (lt_trans h1 h12), ?_⟩
  have hanti := spec_interval_anti decay s maxI r1 r2 hd h1 h12 h2
  have hcast : ((spec_interval ((0.9 : ℝ) ^ (1 / decay) - 1) r2 decay maxI s : ℤ) : ℝ) ≤
      ((spec_interval ((0.9 : ℝ) ^ (1 / decay) - 1) r1 decay maxI s : ℤ) : ℝ) :=
    Int.cast_le.mpr hanti
  linarith

/-- Witness for `next_interval_antitone_in_retention` at concrete
parameters. -/
theorem next_interval_antitone_in_retention_witness :
    ((-1 : ℝ) ≠ 0 ∧ (0 : ℝ) < 1 / 4 ∧ (1 / 4 : ℝ) < 1 / 2 ∧ (1 / 2 : ℝ) < 1) ∧
      (next_interval ((0.9 : ℝ) ^ (1 / (-1 : ℝ)) - 1) (1 / 4) (-1) 36500 1).isSome = true ∧
      (next_interval ((0.9 : ℝ) ^ (1 / (-1 : ℝ)) - 1) (1 / 2) (-1) 36500 1).isSome = true ∧
      (next_interval ((0.9 : ℝ) ^ (1 / (-1 : ℝ)) - 1) (1 / 2) (-1) 36500 1).getD 0 ≤
        (next_interval ((0.9 : ℝ) ^ (1 / (-1 : ℝ)) - 1) (1 / 4) (-1) 36500 1).getD 0 := by
  obtain ⟨i1, i2, ha, hb, hle⟩ := next_interval_antitone_in_retention (-1) 1 36500 (1 / 4)
    (1 / 2) (by norm_num) (by norm_num) (by norm_num) (by norm_num)
  refine ⟨⟨by norm_num, by norm_num, by norm_num, by norm_num⟩, ?_, ?_, ?_⟩
  · rw [ha]
    rfl
  · rw [hb]
    rfl
  · rw [ha, hb]
    simpa using hle

end

end Fsrs
